import Mathlib

/-!
Shallow embedding of the `record!` macro from `src/lib.rs` of the
`recordstruct` crate.

The crate is a single `macro_rules! record` definition with two arms:

  arm 1:  ($i:ident, $($var:ident: $t:ty),*, { $($impl:tt)* }) =>
            pub struct $i { $(pub $var: $t),* }
            impl $i { pub fn new($($var: $t),*) -> Self { Self { $($var),* } } }
            impl $i { $($impl)* }

  arm 2:  ($i:ident, $($var:ident: $t:ty),*) =>
            record!($i, $($var: $t),*, {});

We embed the token-level pattern matching of the two arms, the expansion
into generated declarations, and a value semantics for the generated
`new` constructor (field-shorthand initialisation from the parameters).

Modelling conventions:
* identifiers and field types are `String`s; a `$t:ty` fragment is
  modelled as a single identifier token (the crate's own examples and
  tests use only such types, e.g. `String`);
* the optional behavior block `{ $($impl:tt)* }` is never inspected by
  the macro, so its content is modelled at the item level: a list of
  impl items, each carrying the visibility the user wrote and an opaque
  code string.  The macro copies the block verbatim either way;
* field values in the semantics of `new` are a type parameter `α`.
-/

namespace RecordStruct

/-- Visibility of a generated or user-written item: `pub` when the `pub`
keyword is present, `priv` otherwise. -/
inductive Vis where
  | pub : Vis
  | priv : Vis
deriving DecidableEq, Repr

/-- One item of a behavior block: the visibility the user wrote and the
rest of the item as an opaque code string (the macro never inspects it). -/
structure ImplItem where
  vis : Vis
  code : String
deriving DecidableEq, Repr

/-- A behavior block is the sequence of items between its braces. -/
abbrev Block := List ImplItem

/-- A token of a `record!` invocation, as seen by the macro matcher:
identifiers, the comma and colon literals, and a brace-delimited group. -/
inductive Token where
  | ident : String → Token
  | comma : Token
  | colon : Token
  | brace : Block → Token
deriving DecidableEq, Repr

/-- A record descriptor: the struct name `$i`, the ordered
`(field name, field type)` pairs, and the behavior block (empty when the
invocation supplied `{}` or used the no-block arm). -/
structure Descriptor where
  name : String
  fields : List (String × String)
  block : Block
deriving DecidableEq, Repr

/-- A generated struct field: `pub $var: $t`. -/
structure FieldDecl where
  vis : Vis
  name : String
  ty : String
deriving DecidableEq, Repr

/-- The generated struct declaration: `pub struct $i { $(pub $var: $t),* }`. -/
structure StructDecl where
  vis : Vis
  name : String
  fields : List FieldDecl
deriving DecidableEq, Repr

/-- The generated constructor `pub fn new($($var: $t),*) -> Self`:
its visibility, parameter list in order, and the field-shorthand
initialiser list `Self { $($var),* }`. -/
structure CtorDecl where
  vis : Vis
  params : List (String × String)
  inits : List String
deriving DecidableEq, Repr

/-- A top-level declaration emitted by the expansion. -/
inductive Item where
  | structItem : StructDecl → Item
  | implCtor : String → CtorDecl → Item
  | implBlock : String → Block → Item
deriving DecidableEq, Repr

/-- The struct generated for a descriptor: public struct, one public
field per declared pair, in declaration order (`src/lib.rs:68-70`). -/
def genStruct (d : Descriptor) : StructDecl :=
  ⟨Vis.pub, d.name, d.fields.map fun p => ⟨Vis.pub, p.1, p.2⟩⟩

/-- The constructor generated for a descriptor: `pub fn new` with the
fields as parameters in order and field-shorthand initialisers
(`src/lib.rs:72-78`). -/
def genCtor (d : Descriptor) : CtorDecl :=
  ⟨Vis.pub, d.fields, d.fields.map Prod.fst⟩

/-- Expansion of arm 1 (`src/lib.rs:67-81`): the struct, the impl block
holding `new`, and a second impl block holding the behavior block
verbatim. -/
def expandA (d : Descriptor) : List Item :=
  [Item.structItem (genStruct d),
   Item.implCtor d.name (genCtor d),
   Item.implBlock d.name d.block]

/-- Matcher for the repetition-plus-block tail of arm 1, with at least
one field pair: `$($var:ident: $t:ty),* , { ... }`.  After each pair a
comma must follow; it is either the separator before another pair or the
literal comma before the brace group. -/
def parseArm1Pairs : List Token → Option (List (String × String) × Block)
  | Token.ident v :: Token.colon :: Token.ident t :: Token.comma :: rest =>
    match rest with
    | [Token.brace b] => some ([(v, t)], b)
    | _ => (parseArm1Pairs rest).map fun pb => ((v, t) :: pb.1, pb.2)
  | _ => none

/-- Matcher of arm 1 (`src/lib.rs:67`): `$i:ident` then the literal
comma, then zero or more field pairs, the literal comma and the brace
group.  With zero pairs the remaining tokens are exactly `, { ... }`. -/
def matchArm1 : List Token → Option Descriptor
  | Token.ident i :: Token.comma :: rest =>
    match rest with
    | [Token.comma, Token.brace b] => some ⟨i, [], b⟩
    | _ => (parseArm1Pairs rest).map fun pb => ⟨i, pb.1, pb.2⟩
  | _ => none

/-- Matcher for a non-empty comma-separated field-pair list ending the
invocation (arm 2 tail). -/
def parsePairs1 : List Token → Option (List (String × String))
  | [Token.ident v, Token.colon, Token.ident t] => some [(v, t)]
  | Token.ident v :: Token.colon :: Token.ident t :: Token.comma :: rest =>
    (parsePairs1 rest).map fun ps => (v, t) :: ps
  | _ => none

/-- Matcher of arm 2 (`src/lib.rs:83`): `$i:ident` then the literal
comma, then zero or more field pairs and nothing else. -/
def matchArm2 : List Token → Option (String × List (String × String))
  | Token.ident i :: Token.comma :: rest =>
    if rest = [] then some (i, []) else (parsePairs1 rest).map fun ps => (i, ps)
  | _ => none

/-- Token sequence of a comma-separated field-pair list
`$($var: $t),*`. -/
def pairsTokens : List (String × String) → List Token
  | [] => []
  | [(v, t)] => [Token.ident v, Token.colon, Token.ident t]
  | (v, t) :: p :: rest =>
    Token.ident v :: Token.colon :: Token.ident t :: Token.comma :: pairsTokens (p :: rest)

/-- Token sequence of an invocation `record!($i, $($var: $t),*, { b })`
(the shape arm 2 delegates to, with `b = []`). -/
def invokeWithBlock (i : String) (ps : List (String × String)) (b : Block) : List Token :=
  Token.ident i :: Token.comma :: (pairsTokens ps ++ [Token.comma, Token.brace b])

/-- Token sequence of an invocation `record!($i, $($var: $t),*)` with no
behavior block. -/
def invokeNoBlock (i : String) (ps : List (String × String)) : List Token :=
  Token.ident i :: Token.comma :: pairsTokens ps

/-- The whole `record!` macro (`src/lib.rs:66-86`): try arm 1, then
arm 2.  Arm 2 expands to a new invocation `record!($i, $($var: $t),*, {})`,
which is matched again; that rebuilt invocation always matches arm 1
(theorem `matchArm1_invokeWithBlock`), so the inner fallback to `none`
is never reached. -/
def recordExpand (ts : List Token) : Option (List Item) :=
  match matchArm1 ts with
  | some d => some (expandA d)
  | none =>
    match matchArm2 ts with
    | some ips =>
      match matchArm1 (invokeWithBlock ips.1 ips.2 []) with
      | some d => some (expandA d)
      | none => none
    | none => none

/-- Lookup of a name in a binding environment, first match wins
(shadowing never arises in generated code because struct field names are
unique). -/
def lookupField {α : Type} : List (String × α) → String → Option α
  | [], _ => none
  | (k, v) :: rest, n => if k = n then some v else lookupField rest n

/-- Semantics of the body `Self { $($var),* }` (`src/lib.rs:74-76`):
each listed field name is initialised, by field shorthand, to the value
bound to that name in the environment. -/
def initFields {α : Type} (env : List (String × α)) : List String → Option (List (String × α))
  | [] => some []
  | n :: ns =>
    match lookupField env n with
    | none => none
    | some v => (initFields env ns).map fun rest => (n, v) :: rest

/-- Semantics of calling the generated `new` on an argument list: bind
the parameters to the arguments positionally, then run the
field-shorthand initialisers.  The result is the constructed instance as
an ordered list of `(field name, value)` pairs. -/
def evalNew {α : Type} (c : CtorDecl) (args : List α) : Option (List (String × α)) :=
  initFields ((c.params.map Prod.fst).zip args) c.inits

/-- The descriptor of the crate's own example and test
(`src/lib.rs:92`): `record!(Card, name: String, id: String)`. -/
def cardRecord : Descriptor :=
  ⟨"Card", [("name", "String"), ("id", "String")], []⟩

/-- Semantics of the method the crate's test attaches in its behavior
block (`src/lib.rs:101-103`): reads `self.name` and `self.id` and
returns `format!("{}, {}", self.name, self.id)`. -/
def become_a_string_to_work (self : List (String × String)) : Option String :=
  (lookupField self "name").bind fun n =>
    (lookupField self "id").map fun i => n ++ ", " ++ i

/-- The behavior block of the crate's `impl_works` test
(`src/lib.rs:100-104`): one method, written without `pub`. -/
def cardTestBlock : Block :=
  [⟨Vis.priv, "fn become_a_string_to_work(self) -> String"⟩]

/-- The descriptor of the crate's `impl_works` test (`src/lib.rs:100`). -/
def cardRecordWithImpl : Descriptor :=
  ⟨"Card", [("name", "String"), ("id", "String")], cardTestBlock⟩

/-! Helper lemmas about the matchers on well-formed invocation tokens. -/

/-- The token sequence of a non-empty pair list starts with
`$var : $t`. -/
theorem pairsTokens_cons (v t : String) (qs : List (String × String)) :
    ∃ r, pairsTokens ((v, t) :: qs) = Token.ident v :: Token.colon :: Token.ident t :: r := by
  cases qs with
  | nil => exact ⟨[], rfl⟩
  | cons q qs => exact ⟨Token.comma :: pairsTokens (q :: qs), rfl⟩

/-- Unfolding of `pairsTokens` at a list of two or more pairs. -/
theorem pairsTokens_cons_cons (v t : String) (q : String × String)
    (qs : List (String × String)) :
    pairsTokens ((v, t) :: q :: qs) =
      Token.ident v :: Token.colon :: Token.ident t :: Token.comma :: pairsTokens (q :: qs) :=
  rfl

/-- Arm 1's pair matcher accepts a non-empty pair list followed by the
literal comma and the brace group. -/
theorem parseArm1Pairs_tokens (ps : List (String × String)) :
    ∀ (v t : String) (b : Block),
      parseArm1Pairs (pairsTokens ((v, t) :: ps) ++ [Token.comma, Token.brace b]) =
        some ((v, t) :: ps, b) := by
  induction ps with
  | nil => intro v t b; rfl
  | cons q qs ih =>
    intro v t b
    obtain ⟨v', t'⟩ := q
    rw [pairsTokens_cons_cons]
    simp only [List.cons_append, parseArm1Pairs]
    obtain ⟨r, hr⟩ := pairsTokens_cons v' t' qs
    split
    · rename_i heq
      simp [hr] at heq
    · simp only [List.append_eq]
      rw [ih v' t' b]
      rfl

/-- Arm 1's pair matcher rejects a pair list with no trailing
comma-and-brace. -/
theorem parseArm1Pairs_pairsTokens (ps : List (String × String)) :
    parseArm1Pairs (pairsTokens ps) = none := by
  induction ps with
  | nil => rfl
  | cons p qs ih =>
    obtain ⟨v, t⟩ := p
    cases qs with
    | nil => rfl
    | cons q qs' =>
      obtain ⟨v', t'⟩ := q
      rw [pairsTokens_cons_cons]
      simp only [parseArm1Pairs]
      obtain ⟨r, hr⟩ := pairsTokens_cons v' t' qs'
      split
      · rename_i heq
        simp [hr] at heq
      · rw [ih]
        rfl

/-- Arm 1 matches an invocation carrying an explicit behavior block and
extracts the name, the pairs in order, and the block. -/
theorem matchArm1_invokeWithBlock (i : String) (ps : List (String × String)) (b : Block) :
    matchArm1 (invokeWithBlock i ps b) = some ⟨i, ps, b⟩ := by
  match ps with
  | [] => rfl
  | (v, t) :: qs =>
    simp only [invokeWithBlock, matchArm1]
    obtain ⟨r, hr⟩ := pairsTokens_cons v t qs
    split
    · rename_i heq
      simp [hr] at heq
    · rw [parseArm1Pairs_tokens qs v t b]
      rfl

/-- Arm 1 rejects an invocation with no behavior block. -/
theorem matchArm1_invokeNoBlock (i : String) (ps : List (String × String)) :
    matchArm1 (invokeNoBlock i ps) = none := by
  match ps with
  | [] => rfl
  | (v, t) :: qs =>
    simp only [invokeNoBlock, matchArm1]
    obtain ⟨r, hr⟩ := pairsTokens_cons v t qs
    split
    · rename_i heq
      simp [hr] at heq
    · rw [parseArm1Pairs_pairsTokens ((v, t) :: qs)]
      rfl

/-- Arm 2's pair matcher accepts a non-empty comma-separated pair
list. -/
theorem parsePairs1_tokens (ps : List (String × String)) :
    ∀ (v t : String), parsePairs1 (pairsTokens ((v, t) :: ps)) = some ((v, t) :: ps) := by
  induction ps with
  | nil => intro v t; rfl
  | cons q qs ih =>
    intro v t
    obtain ⟨v', t'⟩ := q
    rw [pairsTokens_cons_cons]
    simp only [parsePairs1]
    rw [ih v' t']
    rfl

/-- Arm 2 matches every no-block invocation, zero pairs included. -/
theorem matchArm2_invokeNoBlock (i : String) (ps : List (String × String)) :
    matchArm2 (invokeNoBlock i ps) = some (i, ps) := by
  match ps with
  | [] => rfl
  | (v, t) :: qs =>
    simp only [invokeNoBlock, matchArm2]
    obtain ⟨r, hr⟩ := pairsTokens_cons v t qs
    rw [if_neg (by simp [hr])]
    rw [parsePairs1_tokens qs v t]
    rfl

/-- Field-shorthand initialisation succeeds and is positional whenever
the names are distinct and the environment agrees with the positional
binding of the names to the arguments. -/
theorem initFields_zip {α : Type} (names : List String) :
    ∀ (args : List α) (env : List (String × α)),
      names.Nodup → names.length = args.length →
      (∀ n, n ∈ names → lookupField env n = lookupField (names.zip args) n) →
      initFields env names = some (names.zip args) := by
  induction names with
  | nil => intro args env _ _ _; rfl
  | cons n ns ih =>
    intro args env hnd hlen henv
    cases args with
    | nil => simp at hlen
    | cons a as =>
      have hn : lookupField env n = some a := by
        rw [henv n (List.mem_cons_self n ns)]
        simp [lookupField]
      have hns : initFields env ns = some (ns.zip as) := by
        apply ih as env hnd.of_cons (by simpa using hlen)
        intro n' hn'
        rw [henv n' (List.mem_cons_of_mem n hn')]
        have hne : n ≠ n' := by
          rintro rfl
          exact (List.nodup_cons.mp hnd).1 hn'
        simp only [List.zip, List.zipWith_cons_cons, lookupField, if_neg hne]
      simp [initFields, hn, hns]

/-! The claims. -/

/-- C1: the generated constructor sets every field positionally — applied
to arguments `v1, ..., vn` it builds the instance whose field `i` is
`vi`, i.e. the positional zip of the field names with the arguments. -/
theorem new_sets_fields {α : Type} (d : Descriptor) (args : List α)
    (hnd : (d.fields.map Prod.fst).Nodup)
    (hlen : args.length = d.fields.length) :
    evalNew (genCtor d) args = some ((d.fields.map Prod.fst).zip args) := by
  unfold evalNew genCtor
  exact initFields_zip _ args _ hnd (by simp [hlen]) (fun n _ => rfl)

/-- Witness for `new_sets_fields`: the crate's `new_fn` test
(`src/lib.rs:92-95`) — `Card::new("Robert", "12345")` yields
`name == "Robert"` and `id == "12345"`. -/
theorem new_sets_fields_card :
    (cardRecord.fields.map Prod.fst).Nodup ∧
    (["Robert", "12345"] : List String).length = cardRecord.fields.length ∧
    evalNew (genCtor cardRecord) ["Robert", "12345"] =
      some [("name", "Robert"), ("id", "12345")] :=
  ⟨by decide, by decide,
    new_sets_fields cardRecord ["Robert", "12345"] (by decide) (by decide)⟩

/-- C2: a no-block invocation (Shape B) expands exactly as the same
invocation with an explicit empty behavior block (Shape A) — the
no-block arm delegates to the block arm with `{}`, so the two call
forms never diverge (proved for every field-pair list, the claim's
one-or-more case included). -/
theorem noBlock_eq_emptyBlock (i : String) (ps : List (String × String)) :
    recordExpand (invokeNoBlock i ps) = recordExpand (invokeWithBlock i ps []) := by
  simp [recordExpand, matchArm1_invokeNoBlock, matchArm2_invokeNoBlock,
    matchArm1_invokeWithBlock]

/-- C3: the generated field declarations keep the descriptor's order,
and the constructor's parameters are in the same order as the field
declarations — correspondence is positional. -/
theorem field_and_param_order (d : Descriptor) :
    (genStruct d).fields.map (fun f => (f.name, f.ty)) = d.fields ∧
    (genCtor d).params = d.fields ∧
    (genCtor d).params.map Prod.fst = (genStruct d).fields.map FieldDecl.name := by
  refine ⟨?_, rfl, ?_⟩ <;> simp [genStruct, genCtor, Function.comp_def]

/-- C5: every generated member is public — the struct, each of its
fields, and the constructor all carry `pub`. -/
theorem generated_all_public (d : Descriptor) :
    (genStruct d).vis = Vis.pub ∧
    (genStruct d).fields.map FieldDecl.vis = List.replicate d.fields.length Vis.pub ∧
    (genCtor d).vis = Vis.pub := by
  refine ⟨rfl, ?_, rfl⟩
  simp [genStruct, List.map_map]
  induction d.fields with
  | nil => rfl
  | cons p ps ih => simp [List.replicate_succ, ih]

/-- C4 counterexample: `record!(Name,)` — a name, a comma and zero field
pairs — is accepted (the field repetition is `*`, zero-or-more), so the
claim that such an invocation is rejected at compile time is false. -/
theorem zero_fields_accepted :
    recordExpand [Token.ident "Name", Token.comma] =
      some (expandA ⟨"Name", [], []⟩) := rfl

/-- C4 amended: both shapes take zero-or-more field pairs.  A lone name
(`record!(Name)`) matches neither arm and is rejected, but a name
followed by a comma and zero pairs (`record!(Name,)`) is accepted and
expands to a zero-field record. -/
theorem lone_name_rejected_comma_accepted (i : String) :
    recordExpand [Token.ident i] = none ∧
    recordExpand [Token.ident i, Token.comma] = some (expandA ⟨i, [], []⟩) :=
  ⟨rfl, rfl⟩

/-- C6: the behavior block's definitions are attached to the generated
type — the expansion always contains `impl $i { block }` — and in the
crate's `impl_works` test (`src/lib.rs:98-107`) the attached method
evaluated on `Card::new("Robert", "12345")` returns
`"Robert, 12345"`. -/
theorem behavior_block_reachable :
    (∀ d : Descriptor, Item.implBlock d.name d.block ∈ expandA d) ∧
    (evalNew (genCtor cardRecordWithImpl) ["Robert", "12345"]).bind
        become_a_string_to_work = some "Robert, 12345" := by
  refine ⟨fun d => ?_, rfl⟩
  simp [expandA]

/-- C7: an invocation with an explicit empty behavior block compiles
(arm 1 matches) and attaches nothing beyond the constructor: the
expansion is exactly the struct, the impl holding `new`, and an impl
block with no members. -/
theorem empty_block_adds_nothing (i : String) (ps : List (String × String)) :
    recordExpand (invokeWithBlock i ps []) =
      some [Item.structItem (genStruct ⟨i, ps, []⟩),
            Item.implCtor i (genCtor ⟨i, ps, []⟩),
            Item.implBlock i []] := by
  simp [recordExpand, matchArm1_invokeWithBlock, expandA]

/-- C8: expansion is deterministic — a pure function of the invocation
tokens alone, reading and writing no other state: equal invocations
yield identical generated declarations. -/
theorem expansion_deterministic (ts₁ ts₂ : List Token) (h : ts₁ = ts₂) :
    recordExpand ts₁ = recordExpand ts₂ := by rw [h]

/-- Witness for `expansion_deterministic` at the crate's `Card`
invocation. -/
theorem expansion_deterministic_card :
    recordExpand (invokeNoBlock "Card" [("name", "String"), ("id", "String")]) =
      recordExpand (invokeNoBlock "Card" [("name", "String"), ("id", "String")]) :=
  expansion_deterministic _ _ rfl

/-- C9: `record!(Name,)` — type name, one comma, zero field pairs — is
accepted: arm 2 matches with an empty repetition, delegates to arm 1,
and the expansion is a public zero-field struct with a public nullary
`new` that returns the empty instance. -/
theorem zero_field_record (i : String) :
    recordExpand [Token.ident i, Token.comma] =
      some [Item.structItem ⟨Vis.pub, i, []⟩,
            Item.implCtor i ⟨Vis.pub, [], []⟩,
            Item.implBlock i []] ∧
    evalNew (genCtor ⟨i, [], []⟩) ([] : List String) = some [] :=
  ⟨rfl, rfl⟩

/-- C10: the behavior block is inserted verbatim into its own impl item,
distinct from the impl item holding the generated `new`, and its items
keep exactly the visibility the user wrote; the `impl_works` test's
method carries no `pub` and stays private in the expansion. -/
theorem block_verbatim_keeps_visibility :
    (∀ d : Descriptor, expandA d =
      [Item.structItem (genStruct d), Item.implCtor d.name (genCtor d),
       Item.implBlock d.name d.block]) ∧
    Item.implBlock "Card" [⟨Vis.priv, "fn become_a_string_to_work(self) -> String"⟩] ∈
      expandA cardRecordWithImpl := by
  refine ⟨fun d => rfl, ?_⟩
  simp [expandA, cardRecordWithImpl, cardTestBlock]

end RecordStruct
